import Mathlib

/-!
Verification of the libfsp streaming-buffer core (`fsp.c`).

The C functions are shallowly embedded: the context struct `fsp_context_s`
becomes a Lean structure, byte buffers become `List Nat` (one `Nat` per
`char` cell), `size_t` arithmetic becomes `Nat` arithmetic, and nullable
pointers become `Option`.  Memory-allocation nondeterminism (whether the
`realloc` inside `fsp_buffer_append` succeeds) is made explicit as a
Boolean parameter `allocOk`.
-/

namespace Fsp

/-- Embedding of `struct fsp_context_s` from `fsp_internal.h`.  Pointer-valued
fields (`parser_state`, `lexer_scanner`, `user_data`) are modelled as `Nat`
pointer values, with `0` playing the role of `NULL`.  The byte buffer
`stream_buffer` is a list whose length is the allocated capacity. -/
structure fsp_context where
  parser_state : Nat
  parser_status : Int
  lexer_scanner : Nat
  stream_buffer : List Nat
  buffer_capacity : Nat
  data_length : Nat
  read_position : Nat
  more_chunks_expected : Bool
  initialization_done : Bool
  user_data : Nat
deriving Repr, DecidableEq

/-- `FSP_DEFAULT_BUFFER_SIZE` from `fsp.c` (64 KiB). -/
def FSP_DEFAULT_BUFFER_SIZE : Nat := 64 * 1024

/-- The `fsp_status` enum from `fsp.h`. -/
inductive fsp_status where
  | OK
  | NEED_DATA
  | ERROR
  | NO_MEMORY
deriving Repr, DecidableEq

/-- Numeric value of each `fsp_status` enumerator (C assigns `FSP_STATUS_OK = 0`
and the rest consecutively). -/
def fsp_status.code : fsp_status → Nat
  | .OK => 0
  | .NEED_DATA => 1
  | .ERROR => 2
  | .NO_MEMORY => 3

/-- `fsp_create`: calloc-zeroed context with a freshly malloc-ed 64 KiB buffer
(the malloc-ed bytes are modelled as zeros; no claim inspects bytes beyond
`data_length`).  Mirrors the field assignments in `fsp.c`. -/
def fsp_create : fsp_context :=
  { parser_state := 0
    parser_status := 0
    lexer_scanner := 0
    stream_buffer := List.replicate FSP_DEFAULT_BUFFER_SIZE 0
    buffer_capacity := FSP_DEFAULT_BUFFER_SIZE
    data_length := 0
    read_position := 0
    more_chunks_expected := true
    initialization_done := false
    user_data := 0 }

/-- The capacity-doubling loop of `fsp_buffer_append`:
`new_capacity = cap; while (new_capacity < need) new_capacity *= 2;`
(called with `cap = buffer_capacity * 2`).  The `cap = 0` guard makes the
recursion total; it is never reached from a context with positive capacity,
where the C loop also terminates. -/
def growCapacity (need : Nat) (cap : Nat) : Nat :=
  if h0 : cap = 0 then 0
  else if h1 : cap < need then growCapacity need (cap * 2)
  else cap
termination_by need - cap
decreasing_by
  omega

/-- `memcpy(stream_buffer + data_length, data, length); data_length += length;`
— the unconditional tail of `fsp_buffer_append`. -/
def appendCopy (c : fsp_context) (d : List Nat) : fsp_context :=
  { c with
    stream_buffer :=
      c.stream_buffer.take c.data_length ++ d ++
        c.stream_buffer.drop (c.data_length + d.length)
    data_length := c.data_length + d.length }

/-- `fsp_buffer_append` body for a non-null context.  `data = none` models a
NULL data pointer; `allocOk` tells whether the `realloc` (if reached)
succeeds.  Returns the C `int` status and the updated context. -/
def fsp_buffer_append_c (c : fsp_context) (data : Option (List Nat))
    (allocOk : Bool) : Int × fsp_context :=
  match data with
  | none => (0, c)
  | some d =>
    if d.length = 0 then (0, c)
    else if c.data_length + d.length > c.buffer_capacity then
      -- compact: move unread data to the beginning
      let unread := c.data_length - c.read_position
      let buf1 :=
        if 0 < unread then
          (c.stream_buffer.drop c.read_position).take unread ++
            c.stream_buffer.drop unread
        else c.stream_buffer
      let c1 : fsp_context :=
        { c with stream_buffer := buf1, data_length := unread,
                 read_position := 0 }
      if c1.data_length + d.length > c1.buffer_capacity then
        if allocOk then
          let new_capacity :=
            growCapacity (c1.data_length + d.length) (c1.buffer_capacity * 2)
          -- realloc preserves the old cells and adds fresh ones (modelled 0)
          let c2 : fsp_context :=
            { c1 with
              stream_buffer :=
                c1.stream_buffer ++
                  List.replicate (new_capacity - c1.buffer_capacity) 0
              buffer_capacity := new_capacity }
          (0, appendCopy c2 d)
        else
          (-1, c1)  -- realloc returned NULL: out of memory
      else (0, appendCopy c1 d)
    else (0, appendCopy c d)

/-- `fsp_buffer_append` including the `!ctx || !data || length == 0` guard:
a `none` context is a successful no-op. -/
def fsp_buffer_append (ctx : Option fsp_context) (data : Option (List Nat))
    (allocOk : Bool) : Int × Option fsp_context :=
  match ctx with
  | none => (0, none)
  | some c =>
    let r := fsp_buffer_append_c c data allocOk
    (r.1, some r.2)

/-- `fsp_read_input` body for a non-null context.  `buffer_null` models a NULL
destination pointer.  Returns the byte count, the bytes copied into the
caller's buffer, and the updated context. -/
def fsp_read_input_c (c : fsp_context) (buffer_null : Bool) (max_size : Nat) :
    Nat × List Nat × fsp_context :=
  if buffer_null ∨ max_size = 0 then (0, [], c)
  else
    let available := c.data_length - c.read_position
    if available = 0 then (0, [], c)
    else
      let to_copy := if available < max_size then available else max_size
      ((to_copy),
       (c.stream_buffer.drop c.read_position).take to_copy,
       { c with read_position := c.read_position + to_copy })

/-- `fsp_read_input` including the NULL-context guard (the `user_data`
argument of the C function is the context pointer). -/
def fsp_read_input (ctx : Option fsp_context) (buffer_null : Bool)
    (max_size : Nat) : Nat × List Nat × Option fsp_context :=
  match ctx with
  | none => (0, [], none)
  | some c =>
    let r := fsp_read_input_c c buffer_null max_size
    (r.1, r.2.1, some r.2.2)

/-- `fsp_buffer_compact` body for a non-null context. -/
def fsp_buffer_compact_c (c : fsp_context) : fsp_context :=
  let unread := c.data_length - c.read_position
  let buf :=
    if 0 < unread ∧ 0 < c.read_position then
      (c.stream_buffer.drop c.read_position).take unread ++
        c.stream_buffer.drop unread
    else c.stream_buffer
  { c with stream_buffer := buf, data_length := unread, read_position := 0 }

/-- `fsp_buffer_compact` including the NULL-context guard. -/
def fsp_buffer_compact (ctx : Option fsp_context) : Option fsp_context :=
  match ctx with
  | none => none
  | some c => some (fsp_buffer_compact_c c)

/-- `fsp_buffer_available`: `data_length - read_position`, `0` for NULL. -/
def fsp_buffer_available (ctx : Option fsp_context) : Nat :=
  match ctx with
  | none => 0
  | some c => c.data_length - c.read_position

/-- `fsp_set_user_data`: stores the pointer value when the context is
non-null. -/
def fsp_set_user_data (ctx : Option fsp_context) (u : Nat) :
    Option fsp_context :=
  match ctx with
  | none => none
  | some c => some { c with user_data := u }

/-- `fsp_get_user_data`: `ctx ? ctx->user_data : NULL`. -/
def fsp_get_user_data (ctx : Option fsp_context) : Nat :=
  match ctx with
  | none => 0
  | some c => c.user_data

/-- `fsp_parse_chunk` body for a non-null context: append the chunk, update
the EOF flag, and report a status. -/
def fsp_parse_chunk_c (c : fsp_context) (chunk : Option (List Nat))
    (is_end : Bool) (allocOk : Bool) : fsp_status × fsp_context :=
  let r := fsp_buffer_append_c c chunk allocOk
  if r.1 ≠ 0 then (fsp_status.NO_MEMORY, r.2)
  else
    let c2 : fsp_context := { r.2 with more_chunks_expected := !is_end }
    if is_end = true ∧ 0 < c2.data_length then (fsp_status.OK, c2)
    else if is_end = false then (fsp_status.NEED_DATA, c2)
    else (fsp_status.OK, c2)

/-- `fsp_parse_chunk` including the NULL-context guard, which returns
`FSP_STATUS_ERROR`. -/
def fsp_parse_chunk (ctx : Option fsp_context) (chunk : Option (List Nat))
    (is_end : Bool) (allocOk : Bool) : fsp_status × Option fsp_context :=
  match ctx with
  | none => (fsp_status.ERROR, none)
  | some c =>
    let r := fsp_parse_chunk_c c chunk is_end allocOk
    (r.1, some r.2)

/-- Unread byte count `data_length - read_position` (what
`fsp_buffer_available` reports for a live context). -/
def availableBytes (c : fsp_context) : Nat :=
  c.data_length - c.read_position

/-- The sequence of unread bytes: buffer contents on `[read_position,
data_length)`. -/
def unreadBytes (c : fsp_context) : List Nat :=
  (c.stream_buffer.drop c.read_position).take (c.data_length - c.read_position)

/-- Well-formedness of a context: cursor ≤ length ≤ capacity, the allocated
block has exactly `buffer_capacity` cells, and capacity is positive (it is
`64 KiB` at creation and only ever doubled). -/
def WF (c : fsp_context) : Prop :=
  c.read_position ≤ c.data_length ∧
  c.data_length ≤ c.buffer_capacity ∧
  c.stream_buffer.length = c.buffer_capacity ∧
  0 < c.buffer_capacity

instance (c : fsp_context) : Decidable (WF c) := by
  unfold WF; infer_instance

/-- One externally visible call on a live context: the five public operations,
with their pointer arguments (`none` = NULL) and the allocation oracle. -/
inductive Op where
  | append (data : Option (List Nat)) (allocOk : Bool)
  | read (buffer_null : Bool) (max_size : Nat)
  | compact
  | available
  | parseChunk (chunk : Option (List Nat)) (is_end : Bool) (allocOk : Bool)

/-- State transition of one call (`fsp_buffer_available` is a pure query and
leaves the state unchanged). -/
def applyOp (c : fsp_context) : Op → fsp_context
  | .append data allocOk => (fsp_buffer_append_c c data allocOk).2
  | .read buffer_null max_size => (fsp_read_input_c c buffer_null max_size).2.2
  | .compact => fsp_buffer_compact_c c
  | .available => c
  | .parseChunk chunk is_end allocOk =>
      (fsp_parse_chunk_c c chunk is_end allocOk).2

/-- Run a sequence of calls from a starting context. -/
def run (c : fsp_context) : List Op → fsp_context
  | [] => c
  | op :: ops => run (applyOp c op) ops

/-- The grown context built by the `realloc` branch of `fsp_buffer_append`
(capacity doubled until `need` fits, old cells preserved). -/
def grownCtx (c1 : fsp_context) (need : Nat) : fsp_context :=
  { c1 with
    stream_buffer :=
      c1.stream_buffer ++
        List.replicate (growCapacity need (c1.buffer_capacity * 2) -
          c1.buffer_capacity) 0
    buffer_capacity := growCapacity need (c1.buffer_capacity * 2) }

/-! ### Basic lemmas about the capacity-doubling loop -/

lemma growCapacity_ge (need cap : Nat) (h : cap ≠ 0) :
    need ≤ growCapacity need cap := by
  unfold growCapacity
  split
  · omega
  · split
    · exact growCapacity_ge need (cap * 2) (by omega)
    · omega
termination_by need - cap
decreasing_by omega

lemma growCapacity_le (need cap : Nat) (h : cap ≠ 0) :
    cap ≤ growCapacity need cap := by
  unfold growCapacity
  split
  · omega
  · split
    · have := growCapacity_le need (cap * 2) (by omega)
      omega
    · omega
termination_by need - cap
decreasing_by omega

lemma growCapacity_pow (need cap : Nat) (h : cap ≠ 0) :
    ∃ k, growCapacity need cap = cap * 2 ^ k ∧ ∀ j < k, cap * 2 ^ j < need := by
  unfold growCapacity
  split
  · omega
  · split
    · obtain ⟨k, hk, hmin⟩ := growCapacity_pow need (cap * 2) (by omega)
      refine ⟨k + 1, ?_, ?_⟩
      · rw [hk]; ring
      · intro j hj
        match j with
        | 0 => simpa using ‹cap < need›
        | j + 1 =>
          have := hmin j (by omega)
          calc cap * 2 ^ (j + 1) = cap * 2 * 2 ^ j := by ring
          _ < need := this
    · exact ⟨0, by simp, by omega⟩
termination_by need - cap
decreasing_by omega

/-! ### Lemmas about `fsp_buffer_compact` -/

/-- Every field of the compacted context except the buffer itself. -/
lemma compact_fields (c : fsp_context) :
    (fsp_buffer_compact_c c).data_length = c.data_length - c.read_position ∧
    (fsp_buffer_compact_c c).read_position = 0 ∧
    (fsp_buffer_compact_c c).buffer_capacity = c.buffer_capacity ∧
    (fsp_buffer_compact_c c).more_chunks_expected = c.more_chunks_expected ∧
    (fsp_buffer_compact_c c).user_data = c.user_data :=
  ⟨rfl, rfl, rfl, rfl, rfl⟩

lemma compact_buffer_length (c : fsp_context)
    (h1 : c.read_position ≤ c.data_length)
    (h2 : c.data_length ≤ c.stream_buffer.length) :
    (fsp_buffer_compact_c c).stream_buffer.length = c.stream_buffer.length := by
  by_cases hg : 0 < c.data_length - c.read_position ∧ 0 < c.read_position
  · simp only [fsp_buffer_compact_c, if_pos hg, List.length_append,
      List.length_take, List.length_drop]
    omega
  · simp only [fsp_buffer_compact_c, if_neg hg]

lemma compact_unread (c : fsp_context)
    (h1 : c.read_position ≤ c.data_length)
    (h2 : c.data_length ≤ c.stream_buffer.length) :
    unreadBytes (fsp_buffer_compact_c c) = unreadBytes c := by
  unfold unreadBytes fsp_buffer_compact_c
  simp only [Nat.sub_zero, List.drop_zero]
  split
  · rename_i hguard
    exact List.take_left'
      (by simp only [List.length_take, List.length_drop]; omega)
  · rename_i hguard
    rcases Decidable.not_and_iff_or_not.mp hguard with h | h
    · have hz : c.data_length - c.read_position = 0 := by omega
      simp [hz]
    · have hz : c.read_position = 0 := by omega
      simp [hz]

lemma compact_WF (c : fsp_context) (hwf : WF c) :
    WF (fsp_buffer_compact_c c) := by
  obtain ⟨hwf1, hwf2, hwf3, hwf4⟩ := hwf
  obtain ⟨hd, hr, hc, _, _⟩ := compact_fields c
  refine ⟨?_, ?_, ?_, ?_⟩
  · omega
  · omega
  · rw [compact_buffer_length c hwf1 (by omega), hwf3, hc]
  · omega

/-- The compaction performed inline by `fsp_buffer_append` (guarded only by
`unread > 0`) yields the same state as `fsp_buffer_compact` (guarded by
`unread > 0 && read_position > 0`): when `read_position = 0` the move is the
identity. -/
lemma inline_compact_eq (c : fsp_context) :
    ({ c with
        stream_buffer :=
          if 0 < c.data_length - c.read_position then
            (c.stream_buffer.drop c.read_position).take
              (c.data_length - c.read_position) ++
              c.stream_buffer.drop (c.data_length - c.read_position)
          else c.stream_buffer
        data_length := c.data_length - c.read_position
        read_position := 0 } : fsp_context) = fsp_buffer_compact_c c := by
  unfold fsp_buffer_compact_c
  by_cases h1 : 0 < c.data_length - c.read_position
  · by_cases h2 : 0 < c.read_position
    · simp [h1, h2]
    · have hp : c.read_position = 0 := by omega
      simp [h1, h2, hp, List.take_append_drop]
  · simp [h1]

/-! ### Lemmas about `appendCopy` -/

lemma appendCopy_fields (c : fsp_context) (d : List Nat) :
    (appendCopy c d).data_length = c.data_length + d.length ∧
    (appendCopy c d).read_position = c.read_position ∧
    (appendCopy c d).buffer_capacity = c.buffer_capacity ∧
    (appendCopy c d).more_chunks_expected = c.more_chunks_expected ∧
    (appendCopy c d).user_data = c.user_data :=
  ⟨rfl, rfl, rfl, rfl, rfl⟩

lemma appendCopy_buffer_length (c : fsp_context) (d : List Nat)
    (hfit : c.data_length + d.length ≤ c.stream_buffer.length) :
    (appendCopy c d).stream_buffer.length = c.stream_buffer.length := by
  unfold appendCopy
  simp only [List.length_append, List.length_take, List.length_drop]
  omega

lemma appendCopy_unread (c : fsp_context) (d : List Nat)
    (hpos : c.read_position ≤ c.data_length)
    (hfit : c.data_length + d.length ≤ c.stream_buffer.length) :
    unreadBytes (appendCopy c d) = unreadBytes c ++ d := by
  simp only [unreadBytes, appendCopy]
  rw [List.append_assoc,
      List.drop_append_of_le_length (by simp only [List.length_take]; omega),
      List.drop_take]
  set X := (c.stream_buffer.drop c.read_position).take
    (c.data_length - c.read_position) with hX
  have hXlen : X.length = c.data_length - c.read_position := by
    rw [hX]; simp only [List.length_take, List.length_drop]; omega
  rw [show c.data_length + d.length - c.read_position = X.length + d.length
        by omega,
      List.take_append, List.take_left]

lemma appendCopy_WF (c : fsp_context) (d : List Nat) (hwf : WF c)
    (hfit : c.data_length + d.length ≤ c.buffer_capacity) :
    WF (appendCopy c d) := by
  obtain ⟨hwf1, hwf2, hwf3, hwf4⟩ := hwf
  refine ⟨?_, ?_, ?_, ?_⟩
  · show c.read_position ≤ c.data_length + d.length
    omega
  · show c.data_length + d.length ≤ c.buffer_capacity
    omega
  · rw [appendCopy_buffer_length c d (by omega)]
    exact hwf3
  · exact hwf4

/-! ### Lemmas about `grownCtx` -/

lemma grownCtx_fields (c1 : fsp_context) (need : Nat) :
    (grownCtx c1 need).data_length = c1.data_length ∧
    (grownCtx c1 need).read_position = c1.read_position ∧
    (grownCtx c1 need).buffer_capacity =
      growCapacity need (c1.buffer_capacity * 2) ∧
    (grownCtx c1 need).more_chunks_expected = c1.more_chunks_expected ∧
    (grownCtx c1 need).user_data = c1.user_data :=
  ⟨rfl, rfl, rfl, rfl, rfl⟩

lemma grownCtx_buffer_length (c1 : fsp_context) (need : Nat)
    (hlen : c1.stream_buffer.length = c1.buffer_capacity)
    (hcap : 0 < c1.buffer_capacity) :
    (grownCtx c1 need).stream_buffer.length =
      growCapacity need (c1.buffer_capacity * 2) := by
  have h2 := growCapacity_le need (c1.buffer_capacity * 2) (by omega)
  unfold grownCtx
  simp only [List.length_append, List.length_replicate, hlen]
  omega

lemma grownCtx_unread (c1 : fsp_context) (need : Nat)
    (hpos : c1.read_position ≤ c1.data_length)
    (hdl : c1.data_length ≤ c1.stream_buffer.length) :
    unreadBytes (grownCtx c1 need) = unreadBytes c1 := by
  unfold unreadBytes grownCtx
  simp only
  rw [List.drop_append_of_le_length (by omega),
      List.take_append_of_le_length (by simp only [List.length_drop]; omega)]

/-! ### Canonical case analysis of `fsp_buffer_append` -/

/-- `fsp_buffer_append` on a non-empty payload is: plain copy when the data
fits; otherwise compact, then copy if the data now fits, else grow (when the
`realloc` succeeds) and copy, or fail leaving the compacted state. -/
lemma fsp_buffer_append_c_eq (c : fsp_context) (d : List Nat) (ok : Bool)
    (hd : d.length ≠ 0) :
    fsp_buffer_append_c c (some d) ok =
      if c.data_length + d.length ≤ c.buffer_capacity then
        (0, appendCopy c d)
      else if (fsp_buffer_compact_c c).data_length + d.length ≤
          c.buffer_capacity then
        (0, appendCopy (fsp_buffer_compact_c c) d)
      else if ok then
        (0, appendCopy
          (grownCtx (fsp_buffer_compact_c c)
            ((fsp_buffer_compact_c c).data_length + d.length)) d)
      else ((-1 : Int), fsp_buffer_compact_c c) := by
  rw [show fsp_buffer_append_c c (some d) ok =
      (if d.length = 0 then (0, c)
      else if c.data_length + d.length > c.buffer_capacity then
        let c1 : fsp_context :=
          { c with
            stream_buffer :=
              if 0 < c.data_length - c.read_position then
                (c.stream_buffer.drop c.read_position).take
                  (c.data_length - c.read_position) ++
                  c.stream_buffer.drop (c.data_length - c.read_position)
              else c.stream_buffer
            data_length := c.data_length - c.read_position
            read_position := 0 }
        if c1.data_length + d.length > c1.buffer_capacity then
          if ok then
            (0, appendCopy (grownCtx c1 (c1.data_length + d.length)) d)
          else ((-1 : Int), c1)
        else (0, appendCopy c1 d)
      else (0, appendCopy c d)) from rfl]
  rw [inline_compact_eq c]
  simp only [if_neg hd]
  by_cases h1 : c.data_length + d.length ≤ c.buffer_capacity
  · rw [if_neg (by omega), if_pos h1]
  · rw [if_pos (by omega), if_neg h1]
    have hcap : (fsp_buffer_compact_c c).buffer_capacity = c.buffer_capacity :=
      rfl
    by_cases h2 : (fsp_buffer_compact_c c).data_length + d.length ≤
        c.buffer_capacity
    · rw [if_neg (by omega), if_pos h2]
    · rw [if_pos (by omega), if_neg h2]

/-- Everything established about a successful `fsp_buffer_append` call on a
well-formed context: the unread sequence is extended by exactly the payload,
the unread count grows by the payload length, well-formedness is preserved,
capacity never shrinks and grows only when needed (by doubling), and the EOF
flag and user pointer are untouched. -/
lemma append_ok_spec (c : fsp_context) (d : List Nat) (ok : Bool)
    (hwf : WF c)
    (hok : (fsp_buffer_append_c c (some d) ok).1 = 0) :
    unreadBytes (fsp_buffer_append_c c (some d) ok).2 = unreadBytes c ++ d ∧
    availableBytes (fsp_buffer_append_c c (some d) ok).2 =
      availableBytes c + d.length ∧
    WF (fsp_buffer_append_c c (some d) ok).2 ∧
    c.buffer_capacity ≤ (fsp_buffer_append_c c (some d) ok).2.buffer_capacity ∧
    (fsp_buffer_append_c c (some d) ok).2.more_chunks_expected =
      c.more_chunks_expected ∧
    (fsp_buffer_append_c c (some d) ok).2.user_data = c.user_data ∧
    (availableBytes c + d.length ≤ c.buffer_capacity →
      (fsp_buffer_append_c c (some d) ok).2.buffer_capacity =
        c.buffer_capacity) ∧
    (c.buffer_capacity < availableBytes c + d.length →
      (fsp_buffer_append_c c (some d) ok).2.buffer_capacity =
        growCapacity (availableBytes c + d.length) (c.buffer_capacity * 2)) := by
  obtain ⟨hwf1, hwf2, hwf3, hwf4⟩ := hwf
  by_cases hd : d.length = 0
  · have hdnil : d = [] := List.length_eq_zero.mp hd
    subst hdnil
    simp only [fsp_buffer_append_c, List.length_nil, if_pos rfl]
    refine ⟨by simp, by simp [availableBytes], ⟨hwf1, hwf2, hwf3, hwf4⟩,
      le_refl _, rfl, rfl, fun _ => rfl, fun hlt => ?_⟩
    exfalso; unfold availableBytes at hlt; omega
  · rw [fsp_buffer_append_c_eq c d ok hd] at hok ⊢
    have hcfields := compact_fields c
    obtain ⟨hcd, hcr, hcc, hcm, hcu⟩ := hcfields
    have hclen := compact_buffer_length c hwf1 (by omega)
    have hcur := compact_unread c hwf1 (by omega)
    have hcwf := compact_WF c ⟨hwf1, hwf2, hwf3, hwf4⟩
    obtain ⟨hcwf1, hcwf2, hcwf3, hcwf4⟩ := hcwf
    by_cases h1 : c.data_length + d.length ≤ c.buffer_capacity
    · -- fits without compaction
      rw [if_pos h1] at hok ⊢
      simp only
      obtain ⟨ha1, ha2, ha3, ha4, ha5⟩ := appendCopy_fields c d
      refine ⟨appendCopy_unread c d hwf1 (by omega), ?_,
        appendCopy_WF c d ⟨hwf1, hwf2, hwf3, hwf4⟩ h1, by rw [ha3], ha4, ha5,
        fun _ => ha3, fun hlt => ?_⟩
      · unfold availableBytes
        rw [ha1, ha2]; omega
      · exfalso; unfold availableBytes at hlt; omega
    · rw [if_neg h1] at hok ⊢
      have havail : availableBytes c = (fsp_buffer_compact_c c).data_length := by
        unfold availableBytes; omega
      by_cases h2 : (fsp_buffer_compact_c c).data_length + d.length ≤
          c.buffer_capacity
      · -- fits after compaction
        rw [if_pos h2] at hok ⊢
        simp only
        obtain ⟨ha1, ha2, ha3, ha4, ha5⟩ :=
          appendCopy_fields (fsp_buffer_compact_c c) d
        refine ⟨?_, ?_, ?_, ?_, by rw [ha4, hcm], by rw [ha5, hcu], ?_, ?_⟩
        · rw [appendCopy_unread (fsp_buffer_compact_c c) d
            (by omega) (by omega), hcur]
        · unfold availableBytes
          rw [ha1, ha2, hcr, hcd]
          omega
        · exact appendCopy_WF (fsp_buffer_compact_c c) d
            ⟨hcwf1, hcwf2, hcwf3, hcwf4⟩ (by omega)
        · rw [ha3, hcc]
        · intro _; rw [ha3, hcc]
        · intro hlt; exfalso; omega
      · -- needs growth
        rw [if_neg h2] at hok ⊢
        have hoktrue : ok = true := by
          rcases ok with _ | _
          · exact absurd hok (by simp)
          · rfl
        subst hoktrue
        rw [if_pos rfl] at hok ⊢
        set c1 := fsp_buffer_compact_c c with hc1
        set need := c1.data_length + d.length with hneed
        have hgrow_le := growCapacity_le need (c1.buffer_capacity * 2)
          (by rw [hcc]; omega)
        have hgrow_ge := growCapacity_ge need (c1.buffer_capacity * 2)
          (by rw [hcc]; omega)
        obtain ⟨hg1, hg2, hg3, hg4, hg5⟩ := grownCtx_fields c1 need
        have hg6 := grownCtx_buffer_length c1 need hcwf3 (by rw [hcc]; omega)
        have hg7 := grownCtx_unread c1 need hcwf1 (by omega)
        have hgwf : WF (grownCtx c1 need) := by
          refine ⟨?_, ?_, ?_, ?_⟩
          · rw [hg1, hg2]; exact hcwf1
          · rw [hg1, hg3]; omega
          · rw [hg6, hg3]
          · rw [hg3]; omega
        have hgpos : (grownCtx c1 need).read_position ≤
            (grownCtx c1 need).data_length := by
          rw [hg1, hg2]; exact hcwf1
        have hgfit : (grownCtx c1 need).data_length + d.length ≤
            (grownCtx c1 need).stream_buffer.length := by
          rw [hg1, hg6]; omega
        obtain ⟨ha1, ha2, ha3, ha4, ha5⟩ :=
          appendCopy_fields (grownCtx c1 need) d
        simp only
        refine ⟨?_, ?_, ?_, ?_, ?_, ?_, ?_, ?_⟩
        · rw [appendCopy_unread (grownCtx c1 need) d hgpos hgfit, hg7, hcur]
        · unfold availableBytes
          rw [ha1, ha2, hg1, hg2, hcr, hcd]
          omega
        · exact appendCopy_WF (grownCtx c1 need) d hgwf
            (by rw [hg1, hg3]; omega)
        · rw [ha3, hg3]
          calc c.buffer_capacity ≤ c1.buffer_capacity * 2 := by
                rw [hcc]; omega
          _ ≤ growCapacity need (c1.buffer_capacity * 2) := hgrow_le
        · rw [ha4, hg4, hcm]
        · rw [ha5, hg5, hcu]
        · intro hfit; exfalso; rw [havail] at hfit; omega
        · intro _
          rw [ha3, hg3, havail, hneed, hcc]

/-- Every `fsp_buffer_append` call either reports success or reports `-1`
leaving exactly the compacted prior state. -/
lemma append_result_cases (c : fsp_context) (data : Option (List Nat))
    (ok : Bool) :
    (fsp_buffer_append_c c data ok).1 = 0 ∨
    fsp_buffer_append_c c data ok = ((-1 : Int), fsp_buffer_compact_c c) := by
  match data with
  | none => exact Or.inl rfl
  | some d =>
    by_cases hd : d.length = 0
    · left
      simp [fsp_buffer_append_c, hd]
    · rw [fsp_buffer_append_c_eq c d ok hd]
      split_ifs with h1 h2 h3
      · exact Or.inl rfl
      · exact Or.inl rfl
      · exact Or.inl rfl
      · exact Or.inr rfl

/-- `fsp_buffer_append` preserves well-formedness, never shrinks the
capacity, and never touches the EOF flag or the user pointer — on success
and on allocation failure alike. -/
lemma append_WF_mono (c : fsp_context) (data : Option (List Nat)) (ok : Bool)
    (hwf : WF c) :
    WF (fsp_buffer_append_c c data ok).2 ∧
    c.buffer_capacity ≤ (fsp_buffer_append_c c data ok).2.buffer_capacity ∧
    (fsp_buffer_append_c c data ok).2.user_data = c.user_data ∧
    (fsp_buffer_append_c c data ok).2.more_chunks_expected =
      c.more_chunks_expected := by
  rcases append_result_cases c data ok with h | h
  · match data with
    | none => exact ⟨hwf, le_refl _, rfl, rfl⟩
    | some d =>
      obtain ⟨_, _, hwf2, hmono, hmore, huser, _, _⟩ :=
        append_ok_spec c d ok hwf h
      exact ⟨hwf2, hmono, huser, hmore⟩
  · rw [h]
    obtain ⟨_, _, hcc, hcm, hcu⟩ := compact_fields c
    exact ⟨compact_WF c hwf, by rw [hcc], hcu, hcm⟩

/-- `fsp_read_input` only ever advances the read cursor (never past
`data_length`); every other field is untouched. -/
lemma read_c_state (c : fsp_context) (bn : Bool) (m : Nat)
    (h1 : c.read_position ≤ c.data_length) :
    (fsp_read_input_c c bn m).2.2.read_position ≤ c.data_length ∧
    c.read_position ≤ (fsp_read_input_c c bn m).2.2.read_position ∧
    (fsp_read_input_c c bn m).2.2.data_length = c.data_length ∧
    (fsp_read_input_c c bn m).2.2.buffer_capacity = c.buffer_capacity ∧
    (fsp_read_input_c c bn m).2.2.stream_buffer = c.stream_buffer ∧
    (fsp_read_input_c c bn m).2.2.user_data = c.user_data ∧
    (fsp_read_input_c c bn m).2.2.more_chunks_expected =
      c.more_chunks_expected := by
  simp only [fsp_read_input_c]
  split_ifs with hg hav hlt <;>
    exact ⟨by simp only []; omega, by simp only []; omega,
      rfl, rfl, rfl, rfl, rfl⟩

lemma read_WF (c : fsp_context) (bn : Bool) (m : Nat) (hwf : WF c) :
    WF (fsp_read_input_c c bn m).2.2 := by
  obtain ⟨h1, h2, h3, h4⟩ := hwf
  obtain ⟨hr1, hr2, hr3, hr4, hr5, _, _⟩ := read_c_state c bn m h1
  exact ⟨by omega, by omega, by rw [hr5, hr4]; exact h3, by omega⟩

/-- The state after `fsp_parse_chunk` is the state after the internal append,
with the EOF flag set to `!is_end` when the append succeeded. -/
lemma parse_chunk_c_state (c : fsp_context) (chunk : Option (List Nat))
    (e ok : Bool) :
    (fsp_parse_chunk_c c chunk e ok).2 =
      if (fsp_buffer_append_c c chunk ok).1 ≠ 0 then
        (fsp_buffer_append_c c chunk ok).2
      else
        { (fsp_buffer_append_c c chunk ok).2 with
          more_chunks_expected := !e } := by
  simp only [fsp_parse_chunk_c]
  split_ifs with h h2 h3 <;> rfl

lemma parse_WF_mono (c : fsp_context) (chunk : Option (List Nat))
    (e ok : Bool) (hwf : WF c) :
    WF (fsp_parse_chunk_c c chunk e ok).2 ∧
    c.buffer_capacity ≤ (fsp_parse_chunk_c c chunk e ok).2.buffer_capacity ∧
    (fsp_parse_chunk_c c chunk e ok).2.user_data = c.user_data := by
  obtain ⟨hwfa, hmono, huser, _⟩ := append_WF_mono c chunk ok hwf
  rw [parse_chunk_c_state c chunk e ok]
  split_ifs with h
  · exact ⟨hwfa, hmono, huser⟩
  · obtain ⟨w1, w2, w3, w4⟩ := hwfa
    exact ⟨⟨w1, w2, w3, w4⟩, hmono, huser⟩

/-- One call preserves well-formedness, never shrinks the capacity, and
never modifies the user pointer. -/
lemma applyOp_WF_mono (c : fsp_context) (op : Op) (hwf : WF c) :
    WF (applyOp c op) ∧
    c.buffer_capacity ≤ (applyOp c op).buffer_capacity ∧
    (applyOp c op).user_data = c.user_data := by
  match op with
  | .append data ok =>
    simp only [applyOp]
    obtain ⟨h1, h2, h3, _⟩ := append_WF_mono c data ok hwf
    exact ⟨h1, h2, h3⟩
  | .read bn m =>
    simp only [applyOp]
    obtain ⟨_, _, _, hcap, _, huser, _⟩ := read_c_state c bn m hwf.1
    exact ⟨read_WF c bn m hwf, by rw [hcap], huser⟩
  | .compact =>
    simp only [applyOp]
    obtain ⟨_, _, hcc, _, hcu⟩ := compact_fields c
    exact ⟨compact_WF c hwf, by rw [hcc], hcu⟩
  | .available => exact ⟨hwf, le_refl _, rfl⟩
  | .parseChunk chunk e ok =>
    simp only [applyOp]
    exact parse_WF_mono c chunk e ok hwf

/-- A fresh context is well-formed. -/
lemma fsp_create_WF : WF fsp_create := by
  refine ⟨Nat.le_refl 0, Nat.zero_le _, ?_, by decide⟩
  show (List.replicate FSP_DEFAULT_BUFFER_SIZE 0).length =
    FSP_DEFAULT_BUFFER_SIZE
  exact List.length_replicate _ _

/-- Well-formedness along any run. -/
lemma run_WF (c : fsp_context) (ops : List Op) (hwf : WF c) :
    WF (run c ops) := by
  induction ops generalizing c with
  | nil => exact hwf
  | cons op ops ih => exact ih _ (applyOp_WF_mono c op hwf).1

/-- If the internal append succeeded, `fsp_parse_chunk` sets the EOF flag to
`!is_end`, whatever its previous value. -/
lemma parse_more_eq (c : fsp_context) (chunk : Option (List Nat))
    (e ok : Bool) (hok : (fsp_buffer_append_c c chunk ok).1 = 0) :
    (fsp_parse_chunk_c c chunk e ok).2.more_chunks_expected = !e := by
  rw [parse_chunk_c_state c chunk e ok]
  simp [hok]

/-- With a working allocator the append never fails. -/
lemma append_true_ok (c : fsp_context) (d : List Nat) :
    (fsp_buffer_append_c c (some d) true).1 = 0 := by
  by_cases hd : d.length = 0
  · simp [fsp_buffer_append_c, hd]
  · rw [fsp_buffer_append_c_eq c d true hd]
    split_ifs with h1 h2 h3
    · rfl
    · rfl
    · rfl
    · exact absurd rfl h3

/-- A small well-formed context used as a concrete test state: capacity 4,
three bytes appended, one already read. -/
def testCtx : fsp_context :=
  { parser_state := 0
    parser_status := 0
    lexer_scanner := 0
    stream_buffer := [10, 20, 30, 40]
    buffer_capacity := 4
    data_length := 3
    read_position := 1
    more_chunks_expected := true
    initialization_done := false
    user_data := 7 }

/-- A small well-formed context that is full (capacity 2, two bytes, one
read): appending two more bytes needs a reallocation even after
compaction. -/
def oomCtx : fsp_context :=
  { parser_state := 0
    parser_status := 0
    lexer_scanner := 0
    stream_buffer := [10, 20]
    buffer_capacity := 2
    data_length := 2
    read_position := 1
    more_chunks_expected := true
    initialization_done := false
    user_data := 7 }

/-! ## C1 -/

/-- C1 counterexample: the claim that `more_chunks_expected`, once set to
false by an `is_end` call, is never set back to true is false on the code.
Starting from a fresh context, a `fsp_parse_chunk` call with `is_end = 1`
sets the flag to false, and a subsequent call with `is_end = 0` sets it back
to true (`fsp_parse_chunk` executes `more_chunks_expected = !is_end`
unconditionally). -/
theorem parse_chunk_more_flag_cex :
    ((fsp_parse_chunk_c fsp_create (some [1]) true true).2.more_chunks_expected
        = false) ∧
    ((fsp_parse_chunk_c
        (fsp_parse_chunk_c fsp_create (some [1]) true true).2
        (some [2]) false true).2.more_chunks_expected = true) := by
  constructor
  · exact parse_more_eq fsp_create (some [1]) true true (by decide)
  · exact parse_more_eq _ (some [2]) false true
      (append_true_ok _ [2])

/-- C1 (amended): whenever the internal append of a `fsp_parse_chunk` call
succeeds, the call sets `more_chunks_expected` to the negation of `is_end`,
regardless of the flag's previous value.  Hence an `is_end` call flips the
flag to false, and it stays false only as long as no later call passes
`is_end = 0`: the false state is not absorbing. -/
theorem parse_chunk_more_flag (c : fsp_context) (chunk : Option (List Nat))
    (e ok : Bool) (hok : (fsp_buffer_append_c c chunk ok).1 = 0) :
    (fsp_parse_chunk_c c chunk e ok).2.more_chunks_expected = !e :=
  parse_more_eq c chunk e ok hok

/-- C1 witness: the amended theorem applied at a fresh context, a one-byte
chunk and `is_end = 0`. -/
theorem parse_chunk_more_flag_witness :
    (fsp_buffer_append_c fsp_create (some [1]) true).1 = 0 ∧
    (fsp_parse_chunk_c fsp_create (some [1]) false true).2.more_chunks_expected
      = !false :=
  ⟨by decide, parse_chunk_more_flag fsp_create (some [1]) false true
    (by decide)⟩

/-! ## C2 -/

/-- C2 counterexample: on reallocation failure the context is not left in
its prior state.  `oomCtx` is a valid context (cursor 1, length 2,
capacity 2); appending two bytes when the allocator fails returns -1 but has
already compacted: `data_length` shrank from 2 to 1 and `read_position` was
reset from 1 to 0. -/
theorem append_oom_prior_state_cex :
    WF oomCtx ∧
    (fsp_buffer_append_c oomCtx (some [1, 2]) false).1 = -1 ∧
    (fsp_buffer_append_c oomCtx (some [1, 2]) false).2.data_length ≠
      oomCtx.data_length ∧
    (fsp_buffer_append_c oomCtx (some [1, 2]) false).2.read_position ≠
      oomCtx.read_position := by
  refine ⟨by decide, by decide, by decide, by decide⟩

/-- What survives an out-of-memory append: the status is -1 and the context
is exactly the compacted prior state. -/
def OomSpec (c : fsp_context) (d : List Nat) : Prop :=
  fsp_buffer_append_c c (some d) false = ((-1 : Int), fsp_buffer_compact_c c) ∧
  (fsp_buffer_append_c c (some d) false).2.buffer_capacity =
    c.buffer_capacity ∧
  unreadBytes (fsp_buffer_append_c c (some d) false).2 = unreadBytes c ∧
  availableBytes (fsp_buffer_append_c c (some d) false).2 =
    availableBytes c ∧
  (fsp_buffer_append_c c (some d) false).2.data_length = availableBytes c ∧
  (fsp_buffer_append_c c (some d) false).2.read_position = 0 ∧
  (fsp_buffer_append_c c (some d) false).2.more_chunks_expected =
    c.more_chunks_expected ∧
  (fsp_buffer_append_c c (some d) false).2.user_data = c.user_data

/-- C2 (amended): if reallocation fails during buffer growth,
`fsp_buffer_append` returns the out-of-memory status (-1) and no data is
lost: capacity, the unread byte sequence, `available()`, the EOF flag and
the user pointer are exactly as before the call.  However the compaction
that precedes the growth attempt has already happened, so `data_length` is
the prior unread count and `read_position` is 0 — not their prior values. -/
theorem append_oom_preserves (c : fsp_context) (d : List Nat) (hwf : WF c)
    (hbig : c.buffer_capacity <
      (c.data_length - c.read_position) + d.length) :
    OomSpec c d := by
  obtain ⟨hwf1, hwf2, hwf3, hwf4⟩ := hwf
  have hd : d.length ≠ 0 := by omega
  have heq : fsp_buffer_append_c c (some d) false =
      ((-1 : Int), fsp_buffer_compact_c c) := by
    rw [fsp_buffer_append_c_eq c d false hd]
    obtain ⟨hcd, _, _, _, _⟩ := compact_fields c
    rw [if_neg (by omega), if_neg (by rw [hcd]; omega), if_neg (by simp)]
  obtain ⟨hcd, hcr, hcc, hcm, hcu⟩ := compact_fields c
  refine ⟨heq, ?_, ?_, ?_, ?_, ?_, ?_, ?_⟩ <;> rw [heq]
  · exact hcc
  · exact compact_unread c hwf1 (by omega)
  · unfold availableBytes
    rw [hcd, hcr]
    omega
  · rw [hcd]; rfl
  · exact hcr
  · exact hcm
  · exact hcu

/-- C2 witness: the amended theorem applied at `oomCtx` with a two-byte
payload. -/
theorem append_oom_preserves_witness :
    WF oomCtx ∧
    oomCtx.buffer_capacity <
      (oomCtx.data_length - oomCtx.read_position) + ([1, 2] : List Nat).length ∧
    OomSpec oomCtx [1, 2] :=
  ⟨by decide, by decide, append_oom_preserves oomCtx [1, 2] (by decide)
    (by decide)⟩

/-! ## C3 -/

/-- C3 counterexample: not every operation treats a null context as a silent
success.  `fsp_parse_chunk(NULL, ...)` returns `FSP_STATUS_ERROR`, whose
numeric value is 2, not the success status 0. -/
theorem parse_chunk_null_cex :
    (fsp_parse_chunk none (some [1]) false true).1 = fsp_status.ERROR ∧
    fsp_status.ERROR ≠ fsp_status.OK ∧
    fsp_status.code fsp_status.ERROR ≠ 0 := by
  decide

/-- C3 (amended): `fsp_buffer_append`, `fsp_read_input`,
`fsp_buffer_compact` and `fsp_buffer_available` treat a null context, null
data/buffer pointer, or zero length as silent no-ops returning success / a
zero count.  `fsp_parse_chunk`, however, returns `FSP_STATUS_ERROR` on a
null context; on a null or empty chunk it appends nothing but still updates
`more_chunks_expected` and returns `FSP_STATUS_OK` or
`FSP_STATUS_NEED_DATA` according to `is_end`. -/
theorem null_zero_noop :
    (∀ (data : Option (List Nat)) (ok : Bool),
      fsp_buffer_append none data ok = (0, none)) ∧
    (∀ (c : fsp_context) (ok : Bool),
      fsp_buffer_append (some c) none ok = (0, some c)) ∧
    (∀ (c : fsp_context) (ok : Bool),
      fsp_buffer_append (some c) (some []) ok = (0, some c)) ∧
    (∀ (bn : Bool) (m : Nat), fsp_read_input none bn m = (0, [], none)) ∧
    (∀ (c : fsp_context) (m : Nat),
      fsp_read_input (some c) true m = (0, [], some c)) ∧
    (∀ (c : fsp_context) (bn : Bool),
      fsp_read_input (some c) bn 0 = (0, [], some c)) ∧
    fsp_buffer_compact none = none ∧
    fsp_buffer_available none = 0 ∧
    (∀ (chunk : Option (List Nat)) (e ok : Bool),
      fsp_parse_chunk none chunk e ok = (fsp_status.ERROR, none)) ∧
    (∀ (c : fsp_context) (e ok : Bool),
      fsp_parse_chunk (some c) none e ok =
        ((if e then fsp_status.OK else fsp_status.NEED_DATA),
         some { c with more_chunks_expected := !e })) ∧
    (∀ (c : fsp_context) (e ok : Bool),
      fsp_parse_chunk (some c) (some []) e ok =
        ((if e then fsp_status.OK else fsp_status.NEED_DATA),
         some { c with more_chunks_expected := !e })) := by
  refine ⟨fun _ _ => rfl, fun _ _ => rfl, fun c ok => ?_, fun _ _ => rfl,
    fun c m => ?_, fun c bn => ?_, rfl, rfl, fun _ _ _ => rfl,
    fun c e ok => ?_, fun c e ok => ?_⟩
  · simp [fsp_buffer_append, fsp_buffer_append_c]
  · simp [fsp_read_input, fsp_read_input_c]
  · simp [fsp_read_input, fsp_read_input_c]
  · rcases e with _ | _ <;>
      by_cases hdl : 0 < c.data_length <;>
      simp [fsp_parse_chunk, fsp_parse_chunk_c, fsp_buffer_append_c, hdl]
  · rcases e with _ | _ <;>
      by_cases hdl : 0 < c.data_length <;>
      simp [fsp_parse_chunk, fsp_parse_chunk_c, fsp_buffer_append_c, hdl]

/-! ## C4 -/

/-- Full functional specification of a read of up to `m` bytes: empty reads
return 0 and change nothing; otherwise exactly `min(available, m)` unread
bytes are delivered, the cursor advances by that amount and `available`
drops by it. -/
def ReadSpec (c : fsp_context) (m : Nat) : Prop :=
  (availableBytes c = 0 → fsp_read_input_c c false m = (0, [], c)) ∧
  (0 < availableBytes c →
    (fsp_read_input_c c false m).1 = min (availableBytes c) m ∧
    0 < (fsp_read_input_c c false m).1 ∧
    (fsp_read_input_c c false m).1 ≤ m ∧
    (fsp_read_input_c c false m).2.1 =
      (unreadBytes c).take (min (availableBytes c) m) ∧
    (fsp_read_input_c c false m).2.2 =
      { c with read_position :=
          c.read_position + min (availableBytes c) m } ∧
    availableBytes (fsp_read_input_c c false m).2.2 =
      availableBytes c - min (availableBytes c) m)

/-- C4: `fsp_read_input` on a valid context and a positive `max_size`
returns 0 and leaves the context unchanged when no bytes are unread
(whatever `more_chunks_expected` is), and otherwise delivers exactly
`k = min(available, max_size)` unread bytes starting at the cursor,
advancing the cursor by `k` so that `available` decreases by exactly `k`. -/
theorem fsp_read_input_correct (c : fsp_context) (m : Nat) (hwf : WF c)
    (hm : 0 < m) : ReadSpec c m := by
  obtain ⟨hwf1, hwf2, hwf3, hwf4⟩ := hwf
  have hguard : ¬((false = true) ∨ m = 0) := by
    simp
    omega
  constructor
  · intro hz
    unfold availableBytes at hz
    simp only [fsp_read_input_c]
    rw [if_neg hguard, if_pos hz]
  · intro hpos
    unfold availableBytes at hpos
    have hmin : (if c.data_length - c.read_position < m then
        c.data_length - c.read_position else m) =
        min (c.data_length - c.read_position) m := by
      split_ifs <;> omega
    simp only [fsp_read_input_c]
    rw [if_neg hguard, if_neg (by omega), hmin]
    refine ⟨rfl, ?_, ?_, ?_, rfl, ?_⟩
    · show 0 < min (c.data_length - c.read_position) m
      omega
    · show min (c.data_length - c.read_position) m ≤ m
      omega
    · show (c.stream_buffer.drop c.read_position).take
          (min (c.data_length - c.read_position) m) =
        (unreadBytes c).take (min (availableBytes c) m)
      unfold unreadBytes availableBytes
      rw [List.take_take]
      congr 1
      omega
    · show c.data_length -
          (c.read_position + min (c.data_length - c.read_position) m) =
        availableBytes c - min (availableBytes c) m
      unfold availableBytes
      omega

/-- C4 witness: the read theorem applied at `testCtx` (two unread bytes)
with `max_size = 5`. -/
theorem fsp_read_input_correct_witness :
    WF testCtx ∧ 0 < 5 ∧ ReadSpec testCtx 5 :=
  ⟨by decide, by decide, fsp_read_input_correct testCtx 5 (by decide)
    (by decide)⟩

/-- A fresh context has no unread bytes. -/
lemma availableBytes_create : availableBytes fsp_create = 0 := rfl

/-! ## C5 -/

/-- Growth-correctness of a successful overflowing append: the unread bytes
are preserved and followed by the payload, `available` grows by the payload
length, and the capacity either stays put (compaction sufficed) or is the
old capacity doubled a minimal number of times so the data fits. -/
def GrowthSpec (c : fsp_context) (d : List Nat) (ok : Bool) : Prop :=
  unreadBytes (fsp_buffer_append_c c (some d) ok).2 = unreadBytes c ++ d ∧
  availableBytes (fsp_buffer_append_c c (some d) ok).2 =
    availableBytes c + d.length ∧
  (availableBytes c + d.length ≤ c.buffer_capacity →
    (fsp_buffer_append_c c (some d) ok).2.buffer_capacity =
      c.buffer_capacity) ∧
  (c.buffer_capacity < availableBytes c + d.length →
    ∃ k, (fsp_buffer_append_c c (some d) ok).2.buffer_capacity =
        c.buffer_capacity * 2 ^ k ∧
      availableBytes c + d.length ≤
        (fsp_buffer_append_c c (some d) ok).2.buffer_capacity ∧
      ∀ j < k, c.buffer_capacity * 2 ^ j < availableBytes c + d.length)

/-- C5: a successful append of a payload larger than the current free
capacity loses no unread byte (the unread sequence afterwards is the old one
followed by the payload), increases `available()` by exactly the payload
length, and grows the capacity — when compaction alone does not make room —
by repeated doubling, stopping at the first doubled size that fits.
Moreover, concretely, appending 128 KiB to a fresh 64 KiB context leaves
`available() = 128 * 1024` with the capacity doubled once to 128 KiB. -/
theorem append_growth_correct (c : fsp_context) (d : List Nat) (ok : Bool)
    (hwf : WF c)
    (hbig : c.buffer_capacity - c.data_length < d.length)
    (hok : (fsp_buffer_append_c c (some d) ok).1 = 0) :
    GrowthSpec c d ok ∧
    availableBytes (fsp_buffer_append_c fsp_create
      (some (List.replicate (128 * 1024) 0)) true).2 = 128 * 1024 ∧
    (fsp_buffer_append_c fsp_create
      (some (List.replicate (128 * 1024) 0)) true).2.buffer_capacity =
      2 * FSP_DEFAULT_BUFFER_SIZE := by
  have hwf4 := hwf.2.2.2
  obtain ⟨hu, ha, _, _, _, _, hfitcap, hgrowcap⟩ := append_ok_spec c d ok hwf hok
  refine ⟨⟨hu, ha, hfitcap, ?_⟩, ?_, ?_⟩
  · intro hlt
    rw [hgrowcap hlt]
    obtain ⟨k, hk, hmin⟩ := growCapacity_pow (availableBytes c + d.length)
      (c.buffer_capacity * 2) (by omega)
    have hge := growCapacity_ge (availableBytes c + d.length)
      (c.buffer_capacity * 2) (by omega)
    refine ⟨k + 1, ?_, hge, ?_⟩
    · rw [hk]; ring
    · intro j hj
      match j with
      | 0 => simpa using hlt
      | j + 1 =>
        have := hmin j (by omega)
        calc c.buffer_capacity * 2 ^ (j + 1)
            = c.buffer_capacity * 2 * 2 ^ j := by ring
        _ < availableBytes c + d.length := this
  · obtain ⟨_, ha128, _, _, _, _, _, _⟩ :=
      append_ok_spec fsp_create (List.replicate (128 * 1024) 0) true
        fsp_create_WF (append_true_ok _ _)
    rw [ha128]
    show availableBytes fsp_create + (List.replicate (128 * 1024) 0).length
      = 128 * 1024
    rw [List.length_replicate, availableBytes_create]
  · obtain ⟨_, _, _, _, _, _, _, hcap128⟩ :=
      append_ok_spec fsp_create (List.replicate (128 * 1024) 0) true
        fsp_create_WF (append_true_ok _ _)
    rw [hcap128 (by
      show (64 * 1024 : Nat) < availableBytes fsp_create +
        (List.replicate (128 * 1024) 0).length
      rw [List.length_replicate]
      norm_num [availableBytes])]
    show growCapacity (availableBytes fsp_create +
        (List.replicate (128 * 1024) 0).length)
      (fsp_create.buffer_capacity * 2) = 2 * FSP_DEFAULT_BUFFER_SIZE
    rw [List.length_replicate]
    show growCapacity (0 + 128 * 1024) (64 * 1024 * 2)
      = 2 * FSP_DEFAULT_BUFFER_SIZE
    rw [growCapacity]
    norm_num [FSP_DEFAULT_BUFFER_SIZE]

/-- C5 witness: the growth theorem applied at `testCtx` (capacity 4, free
space 1) with a three-byte payload and a working allocator. -/
theorem append_growth_correct_witness :
    WF testCtx ∧
    testCtx.buffer_capacity - testCtx.data_length < ([1, 2, 3] : List Nat).length ∧
    (fsp_buffer_append_c testCtx (some [1, 2, 3]) true).1 = 0 ∧
    (GrowthSpec testCtx [1, 2, 3] true ∧
      availableBytes (fsp_buffer_append_c fsp_create
        (some (List.replicate (128 * 1024) 0)) true).2 = 128 * 1024 ∧
      (fsp_buffer_append_c fsp_create
        (some (List.replicate (128 * 1024) 0)) true).2.buffer_capacity =
        2 * FSP_DEFAULT_BUFFER_SIZE) :=
  ⟨by decide, by decide, by decide,
    append_growth_correct testCtx [1, 2, 3] true (by decide) (by decide)
      (by decide)⟩

/-! ## C6 -/

/-- `fsp_buffer_compact` is idempotent (no hypotheses needed). -/
lemma compact_idem (c : fsp_context) :
    fsp_buffer_compact_c (fsp_buffer_compact_c c) = fsp_buffer_compact_c c := by
  show fsp_buffer_compact_c
      { c with
        stream_buffer :=
          if 0 < c.data_length - c.read_position ∧ 0 < c.read_position then
            (c.stream_buffer.drop c.read_position).take
              (c.data_length - c.read_position) ++
              c.stream_buffer.drop (c.data_length - c.read_position)
          else c.stream_buffer
        data_length := c.data_length - c.read_position
        read_position := 0 } = fsp_buffer_compact_c c
  unfold fsp_buffer_compact_c
  simp

/-- Everything C6 asserts about one compaction: unread bytes and their count
are preserved, the cursor is reset, the length becomes the unread count, and
compacting again changes nothing. -/
def CompactSpec (c : fsp_context) : Prop :=
  unreadBytes (fsp_buffer_compact_c c) = unreadBytes c ∧
  availableBytes (fsp_buffer_compact_c c) = availableBytes c ∧
  (fsp_buffer_compact_c c).read_position = 0 ∧
  (fsp_buffer_compact_c c).data_length = availableBytes c ∧
  fsp_buffer_compact_c (fsp_buffer_compact_c c) = fsp_buffer_compact_c c

/-- C6: `fsp_buffer_compact` on a valid context preserves the unread byte
sequence and `available()`, resets `read_position` to 0, sets `data_length`
to the unread count, and is idempotent. -/
theorem fsp_buffer_compact_correct (c : fsp_context) (hwf : WF c) :
    CompactSpec c := by
  obtain ⟨hwf1, hwf2, hwf3, hwf4⟩ := hwf
  obtain ⟨hcd, hcr, _, _, _⟩ := compact_fields c
  refine ⟨compact_unread c hwf1 (by omega), ?_, hcr, by rw [hcd]; rfl,
    compact_idem c⟩
  unfold availableBytes
  rw [hcd, hcr]
  omega

/-- C6 witness: the compaction theorem applied at `testCtx`. -/
theorem fsp_buffer_compact_correct_witness :
    WF testCtx ∧ CompactSpec testCtx :=
  ⟨by decide, fsp_buffer_compact_correct testCtx (by decide)⟩

/-! ## C7 -/

/-- A sequence of `fsp_buffer_append` calls (with a working allocator, so
each succeeds), with no intervening reads. -/
def runAppends (c : fsp_context) : List (List Nat) → fsp_context
  | [] => c
  | d :: ds => runAppends (fsp_buffer_append_c c (some d) true).2 ds

lemma runAppends_available (c : fsp_context) (ds : List (List Nat))
    (hwf : WF c) :
    availableBytes (runAppends c ds) =
      availableBytes c + (ds.map List.length).sum := by
  induction ds generalizing c with
  | nil => simp [runAppends]
  | cons d ds ih =>
    obtain ⟨_, havail, hwf2, _, _, _, _, _⟩ :=
      append_ok_spec c d true hwf (append_true_ok c d)
    simp only [runAppends, List.map_cons, List.sum_cons]
    rw [ih _ hwf2, havail]
    omega

/-- C7: starting from a fresh context, after any sequence of successful
appends with total payload length `L` and no intervening reads,
`fsp_buffer_available` reports exactly `L`; and `fsp_buffer_available` is
the pure query `data_length - read_position`, leaving the context
unchanged. -/
theorem append_available_consistency (ds : List (List Nat)) :
    fsp_buffer_available (some (runAppends fsp_create ds)) =
      (ds.map List.length).sum ∧
    (∀ c : fsp_context,
      fsp_buffer_available (some c) = c.data_length - c.read_position) ∧
    (∀ c : fsp_context, applyOp c Op.available = c) := by
  refine ⟨?_, fun c => rfl, fun c => rfl⟩
  show availableBytes (runAppends fsp_create ds) = (ds.map List.length).sum
  rw [runAppends_available fsp_create ds fsp_create_WF, availableBytes_create,
    Nat.zero_add]

/-! ## C8 -/

/-- C8: in every state reachable from a fresh context by any sequence of
the five operations (null arguments, failing allocations and all), the
invariant `read_position ≤ data_length ≤ buffer_capacity` holds, and no
operation ever decreases `buffer_capacity`. -/
theorem buffer_invariant_reachable (ops : List Op) :
    (run fsp_create ops).read_position ≤ (run fsp_create ops).data_length ∧
    (run fsp_create ops).data_length ≤
      (run fsp_create ops).buffer_capacity ∧
    ∀ op : Op, (run fsp_create ops).buffer_capacity ≤
      (applyOp (run fsp_create ops) op).buffer_capacity := by
  have hwf := run_WF fsp_create ops fsp_create_WF
  exact ⟨hwf.1, hwf.2.1,
    fun op => (applyOp_WF_mono (run fsp_create ops) op hwf).2.1⟩

/-! ## C9 -/

/-- C9: `fsp_get_user_data` returns exactly the pointer stored by
`fsp_set_user_data`, and no buffer operation — append (even a failing one),
read, compact, available, or parse_chunk — ever modifies the stored
`user_data` value. -/
theorem user_data_roundtrip (c : fsp_context) (p : Nat) (hwf : WF c) :
    fsp_get_user_data (fsp_set_user_data (some c) p) = p ∧
    fsp_get_user_data (some c) = c.user_data ∧
    ∀ op : Op, (applyOp c op).user_data = c.user_data := by
  exact ⟨rfl, rfl, fun op => (applyOp_WF_mono c op hwf).2.2⟩

/-- C9 witness: the accessor theorem applied at `testCtx` with the pointer
value 42. -/
theorem user_data_roundtrip_witness :
    WF testCtx ∧
    (fsp_get_user_data (fsp_set_user_data (some testCtx) 42) = 42 ∧
      fsp_get_user_data (some testCtx) = testCtx.user_data ∧
      ∀ op : Op, (applyOp testCtx op).user_data = testCtx.user_data) :=
  ⟨by decide, user_data_roundtrip testCtx 42 (by decide)⟩

/-! ## C10 -/

/-- Frame conditions of an append that fits in the current capacity: no
compaction, no reallocation, existing bytes untouched, the payload written
at offset `data_length`, and `data_length` advanced by the payload
length. -/
def FitAppendSpec (c : fsp_context) (d : List Nat) (ok : Bool) : Prop :=
  fsp_buffer_append_c c (some d) ok = (0, appendCopy c d) ∧
  (fsp_buffer_append_c c (some d) ok).2.read_position = c.read_position ∧
  (fsp_buffer_append_c c (some d) ok).2.buffer_capacity =
    c.buffer_capacity ∧
  (fsp_buffer_append_c c (some d) ok).2.stream_buffer.take c.data_length =
    c.stream_buffer.take c.data_length ∧
  ((fsp_buffer_append_c c (some d) ok).2.stream_buffer.drop
     c.data_length).take d.length = d ∧
  (fsp_buffer_append_c c (some d) ok).2.data_length =
    c.data_length + d.length

/-- Prefix preservation of the raw copy. -/
lemma appendCopy_front_unchanged (c : fsp_context) (d : List Nat)
    (hdl : c.data_length ≤ c.stream_buffer.length) :
    (appendCopy c d).stream_buffer.take c.data_length =
      c.stream_buffer.take c.data_length := by
  simp only [appendCopy]
  rw [List.append_assoc,
    List.take_append_of_le_length (by simp only [List.length_take]; omega),
    List.take_take]
  simp

/-- The payload lands exactly at offset `data_length`. -/
lemma appendCopy_payload_at (c : fsp_context) (d : List Nat)
    (hdl : c.data_length ≤ c.stream_buffer.length) :
    ((appendCopy c d).stream_buffer.drop c.data_length).take d.length = d := by
  simp only [appendCopy]
  rw [List.append_assoc,
    List.drop_append_of_le_length (by simp only [List.length_take]; omega),
    List.drop_take, Nat.sub_self, List.take_zero, List.nil_append,
    List.take_left]

/-- C10: when the payload fits in the current capacity
(`data_length + length ≤ buffer_capacity`), `fsp_buffer_append` performs no
compaction and no reallocation: the cursor, the capacity and the existing
bytes `[0, data_length)` are unchanged, the payload is written at offset
`data_length`, and `data_length` grows by the payload length. -/
theorem append_fit_frame (c : fsp_context) (d : List Nat) (ok : Bool)
    (hwf : WF c)
    (hfit : c.data_length + d.length ≤ c.buffer_capacity) :
    FitAppendSpec c d ok := by
  obtain ⟨hwf1, hwf2, hwf3, hwf4⟩ := hwf
  have heq : fsp_buffer_append_c c (some d) ok = (0, appendCopy c d) := by
    by_cases hd : d.length = 0
    · have hdnil : d = [] := List.length_eq_zero.mp hd
      subst hdnil
      show (0, c) = (0, appendCopy c [])
      unfold appendCopy
      simp only [List.length_nil, Nat.add_zero, List.append_nil,
        List.take_append_drop]
    · rw [fsp_buffer_append_c_eq c d ok hd, if_pos hfit]
  obtain ⟨ha1, ha2, ha3, _, _⟩ := appendCopy_fields c d
  refine ⟨heq, ?_, ?_, ?_, ?_, ?_⟩ <;> rw [heq]
  · exact ha2
  · exact ha3
  · exact appendCopy_front_unchanged c d (by omega)
  · exact appendCopy_payload_at c d (by omega)
  · exact ha1

/-- C10 witness: the frame theorem applied at `testCtx` (one free byte)
with a one-byte payload. -/
theorem append_fit_frame_witness :
    WF testCtx ∧
    testCtx.data_length + ([9] : List Nat).length ≤ testCtx.buffer_capacity ∧
    FitAppendSpec testCtx [9] false :=
  ⟨by decide, by decide, append_fit_frame testCtx [9] false (by decide)
    (by decide)⟩

end Fsp
